import Mathlib

/-!
Verification development for the TGIM Tradovate webhook bridge (`app.py`).

The bridge is a single-file Flask application.  We embed its pure logic
shallowly: JSON field values become an inductive `JVal`, Python string
coercions and truthiness become explicit functions, broker REST calls become
oracle parameters, and machine floats for quantities/timestamps become `ℚ`
with explicit truncation.  Every definition is translated from `app.py`;
definitions that follow the specification text instead (for comparison) say
so in their doc comment.
-/

namespace TGIM

/-- A JSON value as it can appear in a webhook payload field.  Python strings
become `jstr`, JSON numbers become rationals (the float of a JSON decimal
literal), `null` becomes `jnull`. -/
inductive JVal where
  | jnull
  | jstr (s : String)
  | jnum (q : ℚ)
  | jbool (b : Bool)
deriving DecidableEq

/-- Python `str(v)` on a payload field value.  `str(None) = "None"`,
`str(True) = "True"`; for numbers we render via Lean's rational printer,
which (like Python's float repr) never yields the empty string nor one of
the recognized action words, which is all the handler observes about it. -/
def pyStr : JVal → String
  | .jnull => "None"
  | .jstr s => s
  | .jnum q => toString q
  | .jbool b => cond b "True" "False"

/-- Python truthiness of a payload field value (`None`, `""`, `0`, `False`
are falsy). -/
def pyTruthy : JVal → Bool
  | .jnull => false
  | .jstr s => s ≠ ""
  | .jnum q => q ≠ 0
  | .jbool b => b

/-- Python `s.upper()` (per-character uppercasing, as for the ASCII symbols
this bridge handles). -/
def pyUpper (s : String) : String := ⟨s.data.map Char.toUpper⟩

/-- Python `s.lower()`. -/
def pyLower (s : String) : String := ⟨s.data.map Char.toLower⟩

/-- Python `s.strip()`: drop leading and trailing whitespace. -/
def pyStrip (s : String) : String :=
  ⟨((s.data.dropWhile Char.isWhitespace).reverse.dropWhile Char.isWhitespace).reverse⟩

/-- Python `s.startswith(t)`. -/
def startsWithPy (s t : String) : Bool := t.data.isPrefixOf s.data

/-- Python `int(x)` on a float: truncation toward zero. -/
def pyTrunc (q : ℚ) : ℤ :=
  if 0 ≤ q then ⌊q⌋ else -⌊-q⌋

/-- Python `float(v)` for a payload field value, as used for `units`.
`float(None)` raises (`none` here); numbers pass through; booleans coerce to
0/1; strings go through decimal parsing, modelled for plain decimal
literals (the handler turns a raised exception into a 400 response, and no
claim depends on which string literals parse). -/
def pyFloat : JVal → Option ℚ
  | .jnull => none
  | .jnum q => some q
  | .jbool b => some (cond b 1 0)
  | .jstr s => parseDecimal (pyStrip s)
where
  /-- Decimal-literal parsing `[+-]digits[.digits]`, value as a rational. -/
  parseDecimal (s : String) : Option ℚ :=
    let core (t : List Char) : Option ℚ :=
      let intPart := t.takeWhile Char.isDigit
      let rest := t.dropWhile Char.isDigit
      if intPart = [] then none
      else
        let iv : ℚ := (intPart.foldl (fun a c => a * 10 + (c.toNat - 48)) 0 : ℕ)
        match rest with
        | [] => some iv
        | '.' :: frac =>
            if frac ≠ [] ∧ frac.all Char.isDigit then
              let fv : ℚ := (frac.foldl (fun a c => a * 10 + (c.toNat - 48)) 0 : ℕ)
              some (iv + fv / (10 : ℚ) ^ frac.length)
            else none
        | _ => none
    match s.data with
    | '+' :: t => core t
    | '-' :: t => (core t).map Neg.neg
    | t => core t

/-- `s.any(ch.isdigit() for ch in symbol)`: the symbol carries an explicit
contract-month marker. -/
def hasDigit (s : String) : Bool :=
  s.data.any Char.isDigit

/-!
## Risk guardrails (`MAX_QTY_PER_ROOT`, `root_from_instrument`, `enforce_risk`)
-/

/-- The static per-root contract caps from `app.py` (root symbol → max qty). -/
def MAX_QTY_PER_ROOT : List (String × ℤ) :=
  [("ES", 1), ("MES", 10),
   ("NQ", 1), ("MNQ", 6),
   ("YM", 1), ("MYM", 10),
   ("RTY", 1), ("M2K", 10),
   ("6E", 2), ("M6E", 10),
   ("6J", 1), ("M6J", 6),
   ("6B", 2), ("M6B", 10),
   ("6C", 2), ("MCD", 10),
   ("6A", 2), ("M6A", 10),
   ("GC", 1), ("MGC", 10),
   ("SI", 1), ("SIL", 6),
   ("CL", 1), ("MCL", 10),
   ("NG", 1), ("QG", 6)]

/-- `MAX_QTY_PER_ROOT.get(root)`. -/
def capFor (root : String) : Option ℤ :=
  (MAX_QTY_PER_ROOT.find? (fun p => p.1 == root)).map (·.2)

/-- The `while i < len(s) and s[i].isalpha(): i += 1` loop of
`root_from_instrument`: the length of the leading alphabetic run. -/
def leadAlphaLen : List Char → ℕ
  | [] => 0
  | c :: rest => if c.isAlpha then leadAlphaLen rest + 1 else 0

/-- `root_from_instrument(instr)`: uppercase, take the leading alphabetic
block `s[:i]` when `i > 0`, otherwise return `s` whole. -/
def root_from_instrument (instr : String) : String :=
  let s := pyUpper instr
  let i := leadAlphaLen s.data
  if 0 < i then ⟨s.data.take i⟩ else s

/-- `enforce_risk(instrument, qty)`.  Raised `ValueError`s become `.error`.
The trailing notional-cap block of the source resolves a contract id and
discards it inside `try/except Exception: pass`, so it can neither raise
nor affect the result; it has no observable effect to embed. -/
def enforce_risk (instrument : String) (qty : ℤ) : Except String Unit :=
  if qty ≤ 0 then .error "Quantity must be > 0"
  else
    let root := root_from_instrument instrument
    match capFor root with
    | some maxAllowed =>
        if qty > maxAllowed then
          .error ("Risk guard: " ++ root ++ " max qty exceeded")
        else .ok ()
    | none => .ok ()

/-!
## Orders (`place_market` action selection)
-/

/-- The action computed by `place_market`:
`"BUY" if side.lower() == "buy" else "SELL"`. -/
def marketAction (side : String) : String :=
  if pyLower side = "buy" then "BUY" else "SELL"

/-!
## Contract resolution (`_is_explicit_month`, `_pick_front_month`,
`resolve_contract_id`)

The broker's `contract/find` response is JSON: a dict, a list of dicts, or
something else.  A contract dict carries a `name`, an optional `id`, and up
to three expiration fields.  Parsing an ISO expiration string into a
comparable instant (`datetime.fromisoformat` after the `Z` replacement) is
external-library behavior; we abstract it as a `parse : String → Option ℤ`
parameter into an ordered time domain, universally quantified in the
theorems. -/

/-- A contract record from the broker.  `name` is `str(c.get("name", ""))`;
`id` is `c.get("id")`; the three expiration slots mirror
`c.get("expiration")`, `c.get("expirationDate")`, `c.get("expirationTime")`. -/
structure Contract where
  name : String
  id : Option ℤ
  expiration : Option String
  expirationDate : Option String
  expirationTime : Option String
deriving DecidableEq

/-- Python `a or b` on optional strings: `None` and `""` are falsy. -/
def pyOrStr (a b : Option String) : Option String :=
  match a with
  | some s => if s = "" then b else some s
  | none => b

/-- `c.get("expiration") or c.get("expirationDate") or c.get("expirationTime")`. -/
def expRaw (c : Contract) : Option String :=
  pyOrStr c.expiration (pyOrStr c.expirationDate c.expirationTime)

/-- The expiration instant of a contract: the raw field chain, skipped when
falsy (`if not exp_raw: continue`), then parsed; a parse failure is the
`except` branch (`continue`). -/
def expOf (parse : String → Option ℤ) (c : Contract) : Option ℤ :=
  match expRaw c with
  | none => none
  | some raw => if raw = "" then none else parse raw

/-- One iteration of the `_pick_front_month` loop:
`if exp > now and (best_exp is None or exp < best_exp): best, best_exp = c, exp`. -/
def pfmStep (parse : String → Option ℤ) (now : ℤ)
    (acc : Option (Contract × ℤ)) (c : Contract) : Option (Contract × ℤ) :=
  match expOf parse c with
  | none => acc
  | some exp =>
      match acc with
      | none => if now < exp then some (c, exp) else acc
      | some be => if now < exp ∧ exp < be.2 then some (c, exp) else acc

/-- `_pick_front_month(contracts)`: nearest strictly-future expiration,
falling back to `contracts[0]` (`best or (contracts[0] if contracts else None)`). -/
def pick_front_month (parse : String → Option ℤ) (now : ℤ)
    (contracts : List Contract) : Option Contract :=
  match contracts.foldl (pfmStep parse now) none with
  | some be => some be.1
  | none => contracts.head?

/-- The in-memory caches of `TradovateClient`: `_contract_cache`
(symbol/cache-key → contract id) and `_root_to_active` (root → chosen
contract JSON), both Python dicts, modelled as association lists where the
most recent binding shadows older ones. -/
structure ClientState where
  contract_cache : List (String × ℤ)
  root_to_active : List (String × Contract)
deriving DecidableEq

/-- Dict lookup in an association list (most recent binding first). -/
def alistFind {α : Type} (l : List (String × α)) (k : String) : Option α :=
  (l.find? (fun p => p.1 == k)).map (·.2)

/-- Truthiness of `c.get("id")` (absent or `0` is falsy). -/
def idTruthy (c : Contract) : Bool :=
  match c.id with
  | some i => i != 0
  | none => false

/-- The result of one `contract/find` call (`r.json()`). -/
inductive FindResp where
  | jdict (c : Contract)
  | jlist (cs : List Contract)
  | jother
deriving DecidableEq

/-- The explicit-month branch of `resolve_contract_id`, for a normalized
`key` containing a digit: cache lookup, else one direct `contract/find`;
a dict response needs a truthy `id`, a nonempty list response uses
`data[0]["id"]` (a missing key raises `KeyError`), anything else raises. -/
def resolve_direct (search : String → FindResp) (st : ClientState)
    (key : String) : Except String (ℤ × ClientState × ℕ) :=
  match alistFind st.contract_cache key with
  | some cid => .ok (cid, st, 0)
  | none =>
      match search key with
      | .jdict c =>
          match c.id with
          | some cid =>
              if cid ≠ 0 then
                .ok (cid, { st with contract_cache := (key, cid) :: st.contract_cache }, 1)
              else .error ("Could not resolve contractId for " ++ key)
          | none => .error ("Could not resolve contractId for " ++ key)
      | .jlist [] => .error ("Could not resolve contractId for " ++ key)
      | .jlist (c :: _) =>
          match c.id with
          | some cid =>
              .ok (cid, { st with contract_cache := (key, cid) :: st.contract_cache }, 1)
          | none => .error "KeyError: id"
      | .jother => .error ("Could not resolve contractId for " ++ key)

/-- The root-branch filter: a dict response with truthy `id` becomes a
singleton; a list response is filtered to names starting with the root. -/
def rootCandidates (search : String → FindResp) (root : String) : List Contract :=
  match search root with
  | .jdict c => if idTruthy c then [c] else []
  | .jlist cs => cs.filter (fun c => startsWithPy (pyUpper c.name) root)
  | .jother => []

/-- The root-only branch of `resolve_contract_id`: cache lookup under
`root + "->active_id"`, else one `contract/find`, filter, front-month pick
(`if not chosen or not chosen.get("id"): raise`), then cache the id by root
and the chosen contract JSON in `_root_to_active`. -/
def resolve_root (parse : String → Option ℤ) (now : ℤ)
    (search : String → FindResp) (st : ClientState) (root : String) :
    Except String (ℤ × ClientState × ℕ) :=
  let cache_key := root ++ "->active_id"
  match alistFind st.contract_cache cache_key with
  | some cid => .ok (cid, st, 0)
  | none =>
      let contracts := rootCandidates search root
      if contracts = [] then .error ("No contracts found for root " ++ root)
      else
        match pick_front_month parse now contracts with
        | none => .error ("Could not determine front-month for " ++ root)
        | some chosen =>
            match chosen.id with
            | some cid =>
                if cid ≠ 0 then
                  .ok (cid,
                       { contract_cache := (cache_key, cid) :: st.contract_cache,
                         root_to_active := (root, chosen) :: st.root_to_active }, 1)
                else .error ("Could not determine front-month for " ++ root)
            | none => .error ("Could not determine front-month for " ++ root)

/-- `resolve_contract_id(instrument)`.  `search` is the broker's
`contract/find` endpoint keyed by the `name` query parameter; the returned
`ℕ` counts the search calls performed (0 on a cache hit, 1 otherwise).
Raised `RuntimeError`/`KeyError`s become `.error`.  The symbol is
normalized (`instrument.strip().upper()`) and dispatched on
`_is_explicit_month` (any digit present). -/
def resolve_contract_id (parse : String → Option ℤ) (now : ℤ)
    (search : String → FindResp) (st : ClientState) (instrument : String) :
    Except String (ℤ × ClientState × ℕ) :=
  let key := pyUpper (pyStrip instrument)
  if hasDigit key then resolve_direct search st key
  else resolve_root parse now search st key

/-!
## Token lifecycle (`ensure_token`, `_headers`)

`time.time()` instants are modelled as `ℚ`.  The login REST call is an
oracle `LoginOutcome`; the `account/list` bootstrap response is a list of
account ids.  (The lock around `ensure_token` only serializes the body; the
model is the single-threaded behavior inside it.)
-/

/-- The token-relevant session state: `_token`, `_token_expiry`,
`_account_id`. -/
structure TokenState where
  token : Option String
  token_expiry : ℚ
  account_id : Option ℤ
deriving DecidableEq

/-- The outcome of the `auth/accesstokenrequest` call: an HTTP failure
(raised by `raise_for_status`) or a JSON body whose `accessToken` field may
be absent. -/
inductive LoginOutcome where
  | httpError (status : ℕ)
  | ok (accessToken : Option String)
deriving DecidableEq

/-- Truthiness of `self._token` (absent or `""` is falsy). -/
def tokenTruthy : Option String → Bool
  | none => false
  | some s => s != ""

/-- `ensure_token()`.  The returned `Bool` records whether the login call
was performed (`false` on the early `return`).  After a successful login,
the validity window is assumed to be `now + 23 * 3600`; a missing
`accessToken` raises; when no account id is configured, the first account
from `account/list` is taken (none available raises). -/
def ensure_token (st : TokenState) (now : ℚ) (login : LoginOutcome)
    (accounts : List ℤ) : Except String (TokenState × Bool) :=
  if tokenTruthy st.token ∧ now < st.token_expiry - 60 then .ok (st, false)
  else
    match login with
    | .httpError s => .error ("HTTPError " ++ toString s)
    | .ok tok =>
        let st1 : TokenState := { st with token := tok, token_expiry := now + 23 * 3600 }
        if tokenTruthy tok then
          match st1.account_id with
          | some _ => .ok (st1, true)
          | none =>
              match accounts with
              | [] => .error "No Tradovate accounts available."
              | a :: _ => .ok ({ st1 with account_id := some a }, true)
        else .error "Tradovate auth returned no accessToken."

/-- The header map built by `_headers()` after `ensure_token()` succeeds;
`f"Bearer {self._token}"` renders `None` as the string `"None"`. -/
def headerList (st : TokenState) : List (String × String) :=
  [("Authorization", "Bearer " ++ (match st.token with | some t => t | none => "None")),
   ("Accept", "application/json"),
   ("Content-Type", "application/json")]

/-- `_headers()`: re-checks the token before every broker call and attaches
the (possibly renewed) token. -/
def _headers (st : TokenState) (now : ℚ) (login : LoginOutcome)
    (accounts : List ℤ) : Except String (TokenState × List (String × String) × Bool) :=
  match ensure_token st now login accounts with
  | .error e => .error e
  | .ok (st1, logged) => .ok (st1, headerList st1, logged)

/-!
## Positions and `flatten_side`
-/

/-- One position from `position/list`: `contractId` and
`int(p.get("netPos", 0))` (a missing field reads as 0). -/
structure Position where
  contractId : ℤ
  netPos : ℤ
deriving DecidableEq

/-- A market order body as built by `place_market` / `flatten_side`. -/
structure Order where
  accountId : Option ℤ
  contractId : ℤ
  action : String
  orderType : String
  orderQty : ℤ
  timeInForce : String
  isAutomated : Bool
deriving DecidableEq

/-- The per-position body of the `flatten_side` loop: `none` when the
position is skipped (filtered out by `target_cid`, zero net, or wrong
sign), otherwise the closing order submitted for it.  The filter guard is
`if target_cid and int(p.get("contractId")) != target_cid: continue`
(`target_cid` of `None` or `0` is falsy). -/
def closeOrderFor (acct : Option ℤ) (side : String) (targetCid : Option ℤ)
    (p : Position) : Option Order :=
  if (match targetCid with
      | none => false
      | some t => t != 0 && p.contractId != t) then none
  else if side = "long" ∧ 0 < p.netPos then
    some { accountId := acct, contractId := p.contractId, action := "SELL",
           orderType := "Market", orderQty := p.netPos, timeInForce := "Day",
           isAutomated := true }
  else if side = "short" ∧ p.netPos < 0 then
    some { accountId := acct, contractId := p.contractId, action := "BUY",
           orderType := "Market", orderQty := |p.netPos|, timeInForce := "Day",
           isAutomated := true }
  else none

/-- `flatten_side(side, instrument)` over the positions returned by the
broker: lowercases the side, optionally resolves the instrument to a
`target_cid` (only when the instrument is truthy), submits one closing
order per matching position, and returns the orders with their count
(`{"closed": results, "count": len(results)}`).  Each order post is
modelled as succeeding; a non-success post raises out of the loop and is
handled by the webhook layer. -/
def flatten_side (resolveCid : String → Except String ℤ) (acct : Option ℤ)
    (sideRaw : String) (instrument : Option String) (pos : List Position) :
    Except String (List Order × ℕ) := do
  let side := pyLower sideRaw
  let targetCid : Option ℤ ←
    match instrument with
    | some instr => if instr = "" then pure none else (resolveCid instr).map some
    | none => pure none
  let orders := pos.filterMap (closeOrderFor acct side targetCid)
  pure (orders, orders.length)

/-- The closing order `flatten_side` builds for a long position. -/
def sellCloseOrder (acct : Option ℤ) (p : Position) : Order :=
  { accountId := acct, contractId := p.contractId, action := "SELL",
    orderType := "Market", orderQty := p.netPos, timeInForce := "Day",
    isAutomated := true }

/-- The closing order `flatten_side` builds for a short position. -/
def buyCloseOrder (acct : Option ℤ) (p : Position) : Order :=
  { accountId := acct, contractId := p.contractId, action := "BUY",
    orderType := "Market", orderQty := |p.netPos|, timeInForce := "Day",
    isAutomated := true }

/-!
## Webhook handler (`POST /webhook`)

The Flask request is modelled by the configured shared secret, the two
client-supplied secrets, and the parse outcome of the body (`none` when
`request.get_json` raises).  The two broker-touching client methods are an
oracle whose failures distinguish a `requests.HTTPError` (with the response
status and its body when `r.json()` decodes) from any other exception
(carrying `str(e)`).  The handler also returns the trace of broker calls it
made, so "no order placed" is expressible. -/

/-- The recognized fields of the webhook JSON body; `none` means the key is
absent (`payload.get` returns Python `None`). -/
structure Payload where
  action : Option JVal
  instrument : Option JVal
  units : Option JVal
  side : Option JVal
deriving DecidableEq

/-- One inbound webhook request: the configured `TV_SHARED_SECRET` (`""`
when unset), the `X-TV-Secret` header, the `secret` query parameter, and
the parsed body (`none` = malformed JSON). -/
structure Request where
  sharedSecret : String
  headerSecret : Option String
  querySecret : Option String
  body : Option Payload
deriving DecidableEq

/-- Failure of an outbound broker call as seen by the webhook handler:
`http status body` is a raised `requests.HTTPError` whose response has the
given status code and whose body decodes to `body` (or fails to decode when
`none`); `exc msg` is any other exception with `str(e) = msg`. -/
inductive BrokerErr where
  | http (status : ℕ) (body : Option String)
  | exc (msg : String)
deriving DecidableEq

/-- The broker-facing client calls the webhook handler can make. -/
inductive BrokerCall where
  | place (instrument : String) (qty : ℤ) (side : String)
  | flatten (side : String) (instrument : Option String)
deriving DecidableEq

/-- Oracle for the two client methods the handler dispatches to; a broker
response body is abstracted as a string. -/
structure Broker where
  place_market : String → ℤ → String → Except BrokerErr String
  flatten_side : String → Option String → Except BrokerErr String

/-- The response bodies the webhook route can produce (paired with an HTTP
status by `webhook`). -/
inductive RespBody where
  | unauthorized
  | invalidJson
  | instrumentRequired
  | badCloseSide
  | unknownAction (action : String)
  | errMsg (msg : String)
  | brokerHttp (httpField : ℕ) (decodedBody : Option String)
  | entryOk (action instrument : String) (qty : ℤ) (resp : String)
  | closeOk (side : String) (instrument : Option String) (resp : String)
deriving DecidableEq

/-- The two `except` arms around the dispatch: `requests.HTTPError` maps to
502 (`{"http": status, "body": decoded}` when the response body decodes,
else `{"http": 502, "body": str(he)}`), any other exception to 400 with
`str(e)`. -/
def brokerErrResp : BrokerErr → ℕ × RespBody
  | .http status body =>
      match body with
      | some b => (502, .brokerHttp status (some b))
      | none => (502, .brokerHttp 502 none)
  | .exc msg => (400, .errMsg msg)

/-- The failed shared-secret check: a secret is configured and neither the
`X-TV-Secret` header nor the `secret` query parameter matches it. -/
def unauthorizedReq (req : Request) : Prop :=
  req.sharedSecret ≠ "" ∧ req.headerSecret ≠ some req.sharedSecret ∧
    req.querySecret ≠ some req.sharedSecret

instance (req : Request) : Decidable (unauthorizedReq req) := by
  unfold unauthorizedReq
  infer_instance

/-- `str(payload.get("action", "")).lower()`. -/
def actionOf (p : Payload) : String :=
  pyLower (pyStr (p.action.getD (.jstr "")))

/-- `str(payload.get("instrument", "")).strip().upper()` (entry path). -/
def instrOf (p : Payload) : String :=
  pyUpper (pyStrip (pyStr (p.instrument.getD (.jstr ""))))

/-- `float(payload.get("units", 1))` — `none` when the conversion raises. -/
def unitsOf (p : Payload) : Option ℚ :=
  pyFloat (p.units.getD (.jnum 1))

/-- `str(payload.get("side", "")).lower()` (close path). -/
def sideOf (p : Payload) : String :=
  pyLower (pyStr (p.side.getD (.jstr "")))

/-- The close path's instrument:
`str(instrument).upper().strip() if instrument else None` after
`instrument = payload.get("instrument")`. -/
def closeInstrOf (p : Payload) : Option String :=
  match p.instrument with
  | none => none
  | some v => if pyTruthy v then some (pyStrip (pyUpper (pyStr v))) else none

/-- The `"buy"`/`"sell"` arm of the webhook dispatch. -/
def entryDispatch (broker : Broker) (p : Payload) : ℕ × RespBody × List BrokerCall :=
  let action := actionOf p
  let instrument := instrOf p
  if instrument = "" then (400, .instrumentRequired, [])
  else
    match unitsOf p with
    | none => (400, .errMsg "could not convert units to float", [])
    | some q =>
        let qty := pyTrunc q
        match enforce_risk instrument qty with
        | .error msg => (400, .errMsg msg, [])
        | .ok _ =>
            match broker.place_market instrument qty action with
            | .error e =>
                let r := brokerErrResp e
                (r.1, r.2, [.place instrument qty action])
            | .ok resp =>
                (200, .entryOk action instrument qty resp,
                 [.place instrument qty action])

/-- The `"close"` arm of the webhook dispatch. -/
def closeDispatch (broker : Broker) (p : Payload) : ℕ × RespBody × List BrokerCall :=
  let side := sideOf p
  if side ≠ "long" ∧ side ≠ "short" then (400, .badCloseSide, [])
  else
    let instrument := closeInstrOf p
    match broker.flatten_side side instrument with
    | .error e =>
        let r := brokerErrResp e
        (r.1, r.2, [.flatten side instrument])
    | .ok resp => (200, .closeOk side instrument resp, [.flatten side instrument])

/-- The action dispatch on a parsed body. -/
def dispatch (broker : Broker) (p : Payload) : ℕ × RespBody × List BrokerCall :=
  if actionOf p = "buy" ∨ actionOf p = "sell" then entryDispatch broker p
  else if actionOf p = "close" then closeDispatch broker p
  else (400, .unknownAction (actionOf p), [])

/-- `webhook()`.  Returns the HTTP status, the response body, and the trace
of broker calls performed. -/
def webhook (req : Request) (broker : Broker) : ℕ × RespBody × List BrokerCall :=
  if unauthorizedReq req then
    (401, .unauthorized, [])
  else
    match req.body with
    | none => (400, .invalidJson, [])
    | some p => dispatch broker p

/-- Whether a response body is one of the `{"ok": true, ...}` bodies. -/
def RespBody.isOkBody : RespBody → Bool
  | .entryOk _ _ _ _ => true
  | .closeOk _ _ _ => true
  | _ => false

/-- The root symbol as the specification describes it: the leading
(maximal) alphabetic prefix of the uppercased instrument string.  Stated
from the spec text, for comparison with `root_from_instrument`. -/
def claimedRoot (instr : String) : String :=
  ⟨(pyUpper instr).data.takeWhile Char.isAlpha⟩

/-- The front-month selection property as the (amended) specification
describes it: the chosen contract is among the candidates, carries the
nearest parseable expiration strictly after the current time; or, when no
candidate has a future expiration, it is the first candidate.  Stated from
the spec text, for comparison with `pick_front_month`. -/
def FrontMonthChoice (parse : String → Option ℤ) (now : ℤ)
    (candidates : List Contract) (chosen : Contract) : Prop :=
  (∃ e, chosen ∈ candidates ∧ expOf parse chosen = some e ∧ now < e ∧
      ∀ c2 ∈ candidates, ∀ e2, expOf parse c2 = some e2 → now < e2 → e ≤ e2) ∨
  ((∀ c2 ∈ candidates, ∀ e2, expOf parse c2 = some e2 → e2 ≤ now) ∧
      candidates.head? = some chosen)

/-- Fixture: a contract whose name does not start with `"ES"`, id 7. -/
def cxFirst : Contract := ⟨"XX", some 7, some "P", none, none⟩

/-- Fixture: an `"ESZ5"` contract, id 9. -/
def cxSecond : Contract := ⟨"ESZ5", some 9, some "P", none, none⟩

/-- Fixture clock: the expiration string `"P"` parses to instant 50. -/
def cxParse : String → Option ℤ := fun s => if s = "P" then some 50 else none

/-- Fixture broker: every search returns `[cxFirst, cxSecond]`. -/
def cxSearch : String → FindResp := fun _ => .jlist [cxFirst, cxSecond]

/-- Fixture: an entry request — no shared secret configured, body
`{"action": "buy", "instrument": "ES", "units": 5}`. -/
def wReq : Request :=
  ⟨"", none, none, some ⟨some (.jstr "buy"), some (.jstr "ES"), some (.jnum 5), none⟩⟩

/-- Fixture: a broker whose calls always succeed. -/
def wBroker : Broker := ⟨fun _ _ _ => .ok "resp", fun _ _ => .ok "resp"⟩

/-- Fixture: a future-dated `"ESZ5"` contract, id 9. -/
def cxwFuture : Contract := ⟨"ESZ5", some 9, some "F", none, none⟩

/-- Fixture clock: the expiration string `"F"` parses to instant 200. -/
def cxwParse : String → Option ℤ := fun s => if s = "F" then some 200 else none

/-- Fixture broker: every search returns `[cxwFuture]`. -/
def cxwSearch : String → FindResp := fun _ => .jlist [cxwFuture]

/-!
## Theorems
-/

theorem leadAlphaLen_eq_takeWhile_length (l : List Char) :
    leadAlphaLen l = (l.takeWhile Char.isAlpha).length := by
  induction l with
  | nil => rfl
  | cons c rest ih =>
      by_cases h : c.isAlpha
      · simp [leadAlphaLen, List.takeWhile_cons, h, ih]
      · simp [leadAlphaLen, List.takeWhile_cons, h]

theorem take_leadAlphaLen (l : List Char) :
    l.take (leadAlphaLen l) = l.takeWhile Char.isAlpha := by
  induction l with
  | nil => rfl
  | cons c rest ih =>
      by_cases h : c.isAlpha
      · simp [leadAlphaLen, List.takeWhile_cons, h, ih]
      · simp [leadAlphaLen, List.takeWhile_cons, h]

/-- C5 (counterexample): for the instrument `"6E"` — a symbol the risk
table itself lists — the derived root is the whole string `"6E"`, not its
leading alphabetic prefix, which is empty. -/
theorem root_from_instrument_6E_counterexample :
    root_from_instrument "6E" = "6E" ∧ claimedRoot "6E" = "" ∧
      root_from_instrument "6E" ≠ claimedRoot "6E" := by
  refine ⟨by decide, by decide, by decide⟩

/-- C5 (amended): the root used for the risk-cap lookup is the leading
alphabetic prefix of the uppercased instrument string whenever that prefix
is nonempty; when the string does not start with an alphabetic character,
the entire uppercased string is used instead. -/
theorem root_from_instrument_spec (instr : String) :
    (claimedRoot instr ≠ "" → root_from_instrument instr = claimedRoot instr) ∧
    (claimedRoot instr = "" → root_from_instrument instr = pyUpper instr) := by
  unfold root_from_instrument claimedRoot
  constructor
  · intro hne
    have hlen : 0 < leadAlphaLen (pyUpper instr).data := by
      rw [leadAlphaLen_eq_takeWhile_length]
      by_contra h
      push_neg at h
      apply hne
      have hnil : ((pyUpper instr).data.takeWhile Char.isAlpha) = [] :=
        List.length_eq_zero.mp (Nat.le_zero.mp h)
      simp only [hnil]
    simp only [if_pos hlen, take_leadAlphaLen]
  · intro he
    have hnil : (pyUpper instr).data.takeWhile Char.isAlpha = [] := by
      have := congrArg String.data he
      simpa using this
    have hlen : leadAlphaLen (pyUpper instr).data = 0 := by
      rw [leadAlphaLen_eq_takeWhile_length, hnil]
      rfl
    simp [hlen]

/-- C5 (witness): on `"MGC"` the prefix is nonempty and the theorem yields
the prefix itself. -/
theorem root_from_instrument_spec_witness :
    claimedRoot "MGC" ≠ "" ∧ root_from_instrument "MGC" = claimedRoot "MGC" :=
  ⟨by decide, (root_from_instrument_spec "MGC").1 (by decide)⟩

/-- C1: `enforce_risk` accepts exactly the valid quantities: it succeeds
iff the quantity is positive and, when the derived root has a configured
cap, the quantity does not exceed that cap; so it rejects `qty ≤ 0` for
every instrument, rejects `qty` above the cap of a capped root, and accepts
every positive quantity for an uncapped root. -/
theorem enforce_risk_ok_iff (instrument : String) (qty : ℤ) :
    enforce_risk instrument qty = .ok () ↔
      0 < qty ∧ ∀ m, capFor (root_from_instrument instrument) = some m → qty ≤ m := by
  unfold enforce_risk
  by_cases h0 : qty ≤ 0
  · simp only [if_pos h0]
    constructor
    · intro h
      exact absurd h (by simp)
    · intro h
      omega
  · simp only [if_neg h0]
    cases hc : capFor (root_from_instrument instrument) with
    | none =>
        constructor
        · intro _
          exact ⟨by omega, fun m hm => absurd hm (by simp)⟩
        · intro _
          trivial
    | some m =>
        by_cases hm : qty > m
        · simp only [if_pos hm]
          constructor
          · intro h
            exact absurd h (by simp)
          · rintro ⟨-, hall⟩
            exact absurd (hall m rfl) (by omega)
        · simp only [if_neg hm]
          constructor
          · intro _
            refine ⟨by omega, fun k hk => ?_⟩
            obtain rfl : m = k := by injection hk
            omega
          · intro _
            trivial

theorem alistFind_cons_self {α : Type} (l : List (String × α)) (k : String) (v : α) :
    alistFind ((k, v) :: l) k = some v := by
  simp [alistFind, List.find?]

theorem pfmStep_exp_none (parse : String → Option ℤ) (now : ℤ)
    (acc : Option (Contract × ℤ)) (c : Contract) (h : expOf parse c = none) :
    pfmStep parse now acc c = acc := by
  unfold pfmStep
  rw [h]

theorem pfmStep_none_acc (parse : String → Option ℤ) (now : ℤ)
    (c : Contract) (e : ℤ) (h : expOf parse c = some e) :
    pfmStep parse now none c = if now < e then some (c, e) else none := by
  unfold pfmStep
  rw [h]

theorem pfmStep_some_acc (parse : String → Option ℤ) (now : ℤ)
    (be : Contract × ℤ) (c : Contract) (e : ℤ) (h : expOf parse c = some e) :
    pfmStep parse now (some be) c =
      if now < e ∧ e < be.2 then some (c, e) else some be := by
  unfold pfmStep
  rw [h]

theorem pfm_foldl_from_some (parse : String → Option ℤ) (now : ℤ)
    (cs : List Contract) :
    ∀ be : Contract × ℤ, ∃ be2 : Contract × ℤ,
      cs.foldl (pfmStep parse now) (some be) = some be2 := by
  induction cs with
  | nil => exact fun be => ⟨be, rfl⟩
  | cons c rest ih =>
      intro be
      rw [List.foldl_cons]
      cases hexp : expOf parse c with
      | none =>
          rw [pfmStep_exp_none parse now (some be) c hexp]
          exact ih be
      | some e =>
          rw [pfmStep_some_acc parse now be c e hexp]
          by_cases hg : now < e ∧ e < be.2
          · rw [if_pos hg]; exact ih _
          · rw [if_neg hg]; exact ih be

theorem pfm_foldl_eq_none_iff (parse : String → Option ℤ) (now : ℤ)
    (cs : List Contract) :
    ∀ acc, cs.foldl (pfmStep parse now) acc = none ↔
      (acc = none ∧ ∀ c ∈ cs, ∀ e, expOf parse c = some e → e ≤ now) := by
  induction cs with
  | nil => intro acc; simp
  | cons c rest ih =>
      intro acc
      rw [List.foldl_cons]
      cases acc with
      | some be =>
          constructor
          · intro h
            exfalso
            cases hexp : expOf parse c with
            | none =>
                rw [pfmStep_exp_none parse now (some be) c hexp] at h
                obtain ⟨be2, h2⟩ := pfm_foldl_from_some parse now rest be
                rw [h2] at h
                exact Option.noConfusion h
            | some e =>
                rw [pfmStep_some_acc parse now be c e hexp] at h
                by_cases hg : now < e ∧ e < be.2
                · rw [if_pos hg] at h
                  obtain ⟨be2, h2⟩ := pfm_foldl_from_some parse now rest (c, e)
                  rw [h2] at h
                  exact Option.noConfusion h
                · rw [if_neg hg] at h
                  obtain ⟨be2, h2⟩ := pfm_foldl_from_some parse now rest be
                  rw [h2] at h
                  exact Option.noConfusion h
          · rintro ⟨h, -⟩
            exact Option.noConfusion h
      | none =>
          cases hexp : expOf parse c with
          | none =>
              rw [pfmStep_exp_none parse now none c hexp, ih]
              constructor
              · rintro ⟨-, hrest⟩
                refine ⟨rfl, fun c2 hc2 e2 he2 => ?_⟩
                rcases List.mem_cons.mp hc2 with rfl | hc2
                · rw [hexp] at he2
                  exact Option.noConfusion he2
                · exact hrest c2 hc2 e2 he2
              · rintro ⟨-, hall⟩
                exact ⟨rfl, fun c2 hc2 e2 he2 =>
                  hall c2 (List.mem_cons_of_mem _ hc2) e2 he2⟩
          | some e =>
              rw [pfmStep_none_acc parse now c e hexp]
              by_cases hg : now < e
              · rw [if_pos hg]
                constructor
                · intro h
                  obtain ⟨be2, h2⟩ := pfm_foldl_from_some parse now rest (c, e)
                  rw [h2] at h
                  exact Option.noConfusion h
                · rintro ⟨-, hall⟩
                  have := hall c (List.mem_cons_self c rest) e hexp
                  omega
              · rw [if_neg hg, ih]
                constructor
                · rintro ⟨-, hrest⟩
                  refine ⟨rfl, fun c2 hc2 e2 he2 => ?_⟩
                  rcases List.mem_cons.mp hc2 with rfl | hc2
                  · rw [hexp] at he2
                    injection he2 with he2
                    omega
                  · exact hrest c2 hc2 e2 he2
                · rintro ⟨-, hall⟩
                  exact ⟨rfl, fun c2 hc2 e2 he2 =>
                    hall c2 (List.mem_cons_of_mem _ hc2) e2 he2⟩

theorem pfm_foldl_eq_some (parse : String → Option ℤ) (now : ℤ)
    (cs : List Contract) :
    ∀ (acc : Option (Contract × ℤ)) (c : Contract) (e : ℤ),
      cs.foldl (pfmStep parse now) acc = some (c, e) →
      (acc = some (c, e) ∨ (c ∈ cs ∧ expOf parse c = some e ∧ now < e)) ∧
      (∀ c2 ∈ cs, ∀ e2, expOf parse c2 = some e2 → now < e2 → e ≤ e2) ∧
      (∀ b, acc = some b → e ≤ b.2) := by
  induction cs with
  | nil =>
      intro acc c e h
      simp only [List.foldl_nil] at h
      refine ⟨.inl h, by simp, fun b hb => ?_⟩
      rw [h] at hb
      injection hb with hb
      rw [← hb]
  | cons c0 rest ih =>
      intro acc c e h
      rw [List.foldl_cons] at h
      obtain ⟨hmem, hmin, hacc⟩ := ih (pfmStep parse now acc c0) c e h
      cases hexp : expOf parse c0 with
      | none =>
          rw [pfmStep_exp_none parse now acc c0 hexp] at hmem hacc
          refine ⟨?_, ?_, hacc⟩
          · rcases hmem with h1 | ⟨hc, hrest⟩
            · exact .inl h1
            · exact .inr ⟨List.mem_cons_of_mem _ hc, hrest⟩
          · intro c2 hc2 e2 he2 hnow
            rcases List.mem_cons.mp hc2 with rfl | hc2
            · rw [hexp] at he2
              exact Option.noConfusion he2
            · exact hmin c2 hc2 e2 he2 hnow
      | some e0 =>
          cases acc with
          | none =>
              rw [pfmStep_none_acc parse now c0 e0 hexp] at hmem hacc
              by_cases hg : now < e0
              · rw [if_pos hg] at hmem hacc
                have he0 : e ≤ e0 := hacc (c0, e0) rfl
                refine ⟨?_, ?_, by simp⟩
                · rcases hmem with h1 | ⟨hc, hrest⟩
                  · injection h1 with h1
                    obtain ⟨h2, h3⟩ := Prod.mk.inj h1
                    subst h2
                    subst h3
                    exact .inr ⟨List.mem_cons_self c0 rest, hexp, hg⟩
                  · exact .inr ⟨List.mem_cons_of_mem _ hc, hrest⟩
                · intro c2 hc2 e2 he2 hnow
                  rcases List.mem_cons.mp hc2 with rfl | hc2
                  · rw [hexp] at he2
                    injection he2 with he2
                    omega
                  · exact hmin c2 hc2 e2 he2 hnow
              · rw [if_neg hg] at hmem hacc
                refine ⟨?_, ?_, by simp⟩
                · rcases hmem with h1 | ⟨hc, hrest⟩
                  · exact Option.noConfusion h1
                  · exact .inr ⟨List.mem_cons_of_mem _ hc, hrest⟩
                · intro c2 hc2 e2 he2 hnow
                  rcases List.mem_cons.mp hc2 with rfl | hc2
                  · rw [hexp] at he2
                    injection he2 with he2
                    omega
                  · exact hmin c2 hc2 e2 he2 hnow
          | some be =>
              rw [pfmStep_some_acc parse now be c0 e0 hexp] at hmem hacc
              by_cases hg : now < e0 ∧ e0 < be.2
              · rw [if_pos hg] at hmem hacc
                have he0 : e ≤ e0 := hacc (c0, e0) rfl
                refine ⟨?_, ?_, ?_⟩
                · rcases hmem with h1 | ⟨hc, hrest⟩
                  · injection h1 with h1
                    obtain ⟨h2, h3⟩ := Prod.mk.inj h1
                    subst h2
                    subst h3
                    exact .inr ⟨List.mem_cons_self c0 rest, hexp, hg.1⟩
                  · exact .inr ⟨List.mem_cons_of_mem _ hc, hrest⟩
                · intro c2 hc2 e2 he2 hnow
                  rcases List.mem_cons.mp hc2 with rfl | hc2
                  · rw [hexp] at he2
                    injection he2 with he2
                    omega
                  · exact hmin c2 hc2 e2 he2 hnow
                · intro b hb
                  injection hb with hb
                  subst hb
                  have := hg.2
                  omega
              · rw [if_neg hg] at hmem hacc
                have hbe : e ≤ be.2 := hacc be rfl
                refine ⟨?_, ?_, ?_⟩
                · rcases hmem with h1 | ⟨hc, hrest⟩
                  · exact .inl h1
                  · exact .inr ⟨List.mem_cons_of_mem _ hc, hrest⟩
                · intro c2 hc2 e2 he2 hnow
                  rcases List.mem_cons.mp hc2 with rfl | hc2
                  · rw [hexp] at he2
                    injection he2 with he2
                    subst he2
                    have hnb : ¬ e0 < be.2 := fun hlt => hg ⟨hnow, hlt⟩
                    omega
                  · exact hmin c2 hc2 e2 he2 hnow
                · intro b hb
                  injection hb with hb
                  subst hb
                  exact hbe

theorem resolve_direct_ok (search : String → FindResp) (st : ClientState)
    (key : String) (cid : ℤ) (st1 : ClientState) (n : ℕ)
    (h : resolve_direct search st key = .ok (cid, st1, n)) :
    alistFind st1.contract_cache key = some cid ∧
    resolve_direct search st1 key = .ok (cid, st1, 0) ∧
    (alistFind st.contract_cache key = none → n = 1) := by
  unfold resolve_direct at h ⊢
  cases hf : alistFind st.contract_cache key with
  | some c0 =>
      simp only [hf] at h
      rw [Except.ok.injEq, Prod.mk.injEq, Prod.mk.injEq] at h
      obtain ⟨rfl, rfl, rfl⟩ := h
      exact ⟨hf, by simp only [hf], fun hn => Option.noConfusion hn⟩
  | none =>
      simp only [hf] at h
      cases hs : search key with
      | jdict c =>
          simp only [hs] at h
          cases hid : c.id with
          | some cid0 =>
              simp only [hid] at h
              by_cases hz : cid0 ≠ 0
              · rw [if_pos hz] at h
                rw [Except.ok.injEq, Prod.mk.injEq, Prod.mk.injEq] at h
                obtain ⟨rfl, rfl, rfl⟩ := h
                exact ⟨alistFind_cons_self _ _ _, by simp only [alistFind_cons_self],
                       fun _ => rfl⟩
              · rw [if_neg hz] at h
                exact absurd h (by simp)
          | none =>
              simp only [hid] at h
              exact absurd h (by simp)
      | jlist cs =>
          simp only [hs] at h
          cases cs with
          | nil => exact absurd h (by simp)
          | cons c rest =>
              cases hid : c.id with
              | some cid0 =>
                  simp only [hid] at h
                  rw [Except.ok.injEq, Prod.mk.injEq, Prod.mk.injEq] at h
                  obtain ⟨rfl, rfl, rfl⟩ := h
                  exact ⟨alistFind_cons_self _ _ _, by simp only [alistFind_cons_self],
                         fun _ => rfl⟩
              | none =>
                  simp only [hid] at h
                  exact absurd h (by simp)
      | jother =>
          simp only [hs] at h
          exact absurd h (by simp)

theorem pick_front_month_choice (parse : String → Option ℤ) (now : ℤ)
    (cs : List Contract) (c : Contract)
    (h : pick_front_month parse now cs = some c) :
    FrontMonthChoice parse now cs c := by
  unfold pick_front_month at h
  cases hf : cs.foldl (pfmStep parse now) none with
  | none =>
      rw [hf] at h
      exact .inr ⟨((pfm_foldl_eq_none_iff parse now cs none).mp hf).2, h⟩
  | some be =>
      rw [hf] at h
      injection h with h
      obtain ⟨hmem, hmin, -⟩ :=
        pfm_foldl_eq_some parse now cs none be.1 be.2 (by rw [hf])
      rcases hmem with h1 | ⟨hc, hexp, hnow⟩
      · exact Option.noConfusion h1
      · subst h
        exact .inl ⟨be.2, hc, hexp, hnow, hmin⟩

theorem resolve_root_ok (parse : String → Option ℤ) (now : ℤ)
    (search : String → FindResp) (st : ClientState) (root : String)
    (cid : ℤ) (st1 : ClientState) (n : ℕ)
    (hmiss : alistFind st.contract_cache (root ++ "->active_id") = none)
    (h : resolve_root parse now search st root = .ok (cid, st1, n)) :
    ∃ chosen, pick_front_month parse now (rootCandidates search root) = some chosen ∧
      chosen.id = some cid ∧
      st1 = { contract_cache := (root ++ "->active_id", cid) :: st.contract_cache,
              root_to_active := (root, chosen) :: st.root_to_active } ∧
      n = 1 := by
  unfold resolve_root at h
  simp only [hmiss] at h
  by_cases hempty : rootCandidates search root = []
  · rw [if_pos hempty] at h
    exact absurd h (by simp)
  · rw [if_neg hempty] at h
    cases hp : pick_front_month parse now (rootCandidates search root) with
    | none =>
        rw [hp] at h
        exact absurd h (by simp)
    | some chosen =>
        rw [hp] at h
        cases hid : chosen.id with
        | some cid0 =>
            simp only [hid] at h
            by_cases hz : cid0 ≠ 0
            · rw [if_pos hz] at h
              rw [Except.ok.injEq, Prod.mk.injEq, Prod.mk.injEq] at h
              obtain ⟨rfl, hst, rfl⟩ := h
              exact ⟨chosen, rfl, hid, hst.symm, rfl⟩
            · rw [if_neg hz] at h
              exact absurd h (by simp)
        | none =>
            simp only [hid] at h
            exact absurd h (by simp)

/-- C3 (amended): for a root-only symbol (no digit in its normalized form)
on a cache miss, with the broker returning a list of contracts, every
successful resolution chooses its contract among the returned contracts
whose name starts with the root: the one with the nearest expiration
strictly after the current time when any such exists, and otherwise the
first contract of that filtered list; one search is performed and the
chosen contract id is cached under the root key. -/
theorem resolve_root_front_month (parse : String → Option ℤ) (now : ℤ)
    (search : String → FindResp) (st : ClientState) (instrument : String)
    (cs : List Contract)
    (hnd : hasDigit (pyUpper (pyStrip instrument)) = false)
    (hmiss : alistFind st.contract_cache
        (pyUpper (pyStrip instrument) ++ "->active_id") = none)
    (hresp : search (pyUpper (pyStrip instrument)) = .jlist cs) :
    ∀ cid st1 n,
      resolve_contract_id parse now search st instrument = .ok (cid, st1, n) →
      ∃ chosen,
        FrontMonthChoice parse now
          (cs.filter (fun c => startsWithPy (pyUpper c.name) (pyUpper (pyStrip instrument))))
          chosen ∧
        chosen.id = some cid ∧
        alistFind st1.contract_cache
          (pyUpper (pyStrip instrument) ++ "->active_id") = some cid ∧
        alistFind st1.root_to_active (pyUpper (pyStrip instrument)) = some chosen ∧
        n = 1 := by
  intro cid st1 n h
  unfold resolve_contract_id at h
  rw [if_neg (by simp [hnd])] at h
  obtain ⟨chosen, hp, hid, hst, hn⟩ :=
    resolve_root_ok parse now search st _ cid st1 n hmiss h
  have hrc : rootCandidates search (pyUpper (pyStrip instrument)) =
      cs.filter (fun c => startsWithPy (pyUpper c.name) (pyUpper (pyStrip instrument))) := by
    unfold rootCandidates
    rw [hresp]
  refine ⟨chosen, ?_, hid, ?_, ?_, hn⟩
  · rw [← hrc]
    exact pick_front_month_choice parse now _ chosen hp
  · rw [hst]
    exact alistFind_cons_self _ _ _
  · rw [hst]
    exact alistFind_cons_self _ _ _

/-- C3 (witness): a single future-dated `"ESZ5"` contract for root `"ES"`
is chosen, its id 9 cached under `"ES->active_id"`, with one search. -/
theorem resolve_root_front_month_witness :
    ∃ chosen,
      FrontMonthChoice cxwParse 100
        ([cxwFuture].filter
          (fun c => startsWithPy (pyUpper c.name) (pyUpper (pyStrip "ES"))))
        chosen ∧
      chosen.id = some 9 ∧
      alistFind (⟨[("ES->active_id", 9)], [("ES", cxwFuture)]⟩ : ClientState).contract_cache
        (pyUpper (pyStrip "ES") ++ "->active_id") = some 9 ∧
      alistFind (⟨[("ES->active_id", 9)], [("ES", cxwFuture)]⟩ : ClientState).root_to_active
        (pyUpper (pyStrip "ES")) = some chosen ∧
      (1 : ℕ) = 1 :=
  resolve_root_front_month cxwParse 100 cxwSearch ⟨[], []⟩ "ES" [cxwFuture]
    (by decide) (by rfl) (by rfl) 9 ⟨[("ES->active_id", 9)], [("ES", cxwFuture)]⟩ 1 (by rfl)

/-- C3 (counterexample): at time 100 the broker returns two contracts for
root `"ES"`, both with expirations in the past (parsing to 50): the first
returned contract (`"XX"`, id 7) does not start with the root, the second
(`"ESZ5"`, id 9) does.  Since no candidate has a future expiration, the
claim's fallback — "the first contract returned" — would give id 7, but the
code resolves to id 9, the first contract of the filtered list. -/
theorem resolve_root_fallback_counterexample :
    (resolve_contract_id cxParse 100 cxSearch ⟨[], []⟩ "ES").toOption.map (fun r => r.1) =
      some 9 ∧
    cxSearch "ES" = .jlist [cxFirst, cxSecond] ∧
    cxFirst.id = some 7 ∧
    (∀ c ∈ [cxFirst, cxSecond], ∀ e, expOf cxParse c = some e → e ≤ 100) ∧
    (9 : ℤ) ≠ 7 := by
  refine ⟨by rfl, rfl, rfl, ?_, by decide⟩
  intro c hc e he
  have hc2 : c = cxFirst ∨ c = cxSecond := by simpa using hc
  rcases hc2 with rfl | rfl
  · rw [show expOf cxParse cxFirst = some 50 from rfl] at he
    injection he with he
    omega
  · rw [show expOf cxParse cxSecond = some 50 from rfl] at he
    injection he with he
    omega

/-- C6: for any symbol whose normalized form contains a digit,
`resolve_contract_id` takes the direct-lookup path (its result is the
direct branch and is independent of the front-month clock and expiration
parsing), the resolved id is cached under the normalized symbol string, a
first resolution from a cache miss performs exactly one search, and a
second resolution of the same symbol reads the cache, returns the same id,
and performs no search. -/
theorem resolve_explicit_spec (parse : String → Option ℤ) (now : ℤ)
    (search : String → FindResp) (st : ClientState) (instrument : String)
    (hd : hasDigit (pyUpper (pyStrip instrument)) = true) :
    resolve_contract_id parse now search st instrument =
      resolve_direct search st (pyUpper (pyStrip instrument)) ∧
    (∀ parse2 now2, resolve_contract_id parse now search st instrument =
        resolve_contract_id parse2 now2 search st instrument) ∧
    (∀ cid st1 n,
        resolve_contract_id parse now search st instrument = .ok (cid, st1, n) →
        alistFind st1.contract_cache (pyUpper (pyStrip instrument)) = some cid ∧
        resolve_contract_id parse now search st1 instrument = .ok (cid, st1, 0) ∧
        (alistFind st.contract_cache (pyUpper (pyStrip instrument)) = none → n = 1)) := by
  have hbr : ∀ st2 : ClientState, resolve_contract_id parse now search st2 instrument =
      resolve_direct search st2 (pyUpper (pyStrip instrument)) := by
    intro st2
    unfold resolve_contract_id
    simp only [hd, if_true]
  refine ⟨hbr st, ?_, ?_⟩
  · intro parse2 now2
    rw [hbr st]
    unfold resolve_contract_id
    simp only [hd, if_true]
  · intro cid st1 n h
    rw [hbr st] at h
    obtain ⟨h1, h2, h3⟩ := resolve_direct_ok search st _ cid st1 n h
    exact ⟨h1, by rw [hbr st1]; exact h2, h3⟩

/-- C6 (witness): resolving `"ESZ5"` from an empty cache performs one
search, caches the id under `"ESZ5"`, and a repeat resolution is a pure
cache hit with no search. -/
theorem resolve_explicit_spec_witness :
    (resolve_contract_id (fun _ => none) 0
        (fun _ => .jlist [⟨"ESZ5", some 9, none, none, none⟩]) ⟨[], []⟩ "ESZ5" =
      .ok (9, ⟨[("ESZ5", 9)], []⟩, 1)) ∧
    alistFind (⟨[("ESZ5", 9)], []⟩ : ClientState).contract_cache "ESZ5" = some 9 ∧
    resolve_contract_id (fun _ => none) 0
        (fun _ => .jlist [⟨"ESZ5", some 9, none, none, none⟩]) ⟨[("ESZ5", 9)], []⟩ "ESZ5" =
      .ok (9, ⟨[("ESZ5", 9)], []⟩, 0) := by
  have h := (resolve_explicit_spec (fun _ => none) 0
      (fun _ => .jlist [⟨"ESZ5", some 9, none, none, none⟩]) ⟨[], []⟩ "ESZ5"
      (by decide)).2.2 9 ⟨[("ESZ5", 9)], []⟩ 1 (by rfl)
  refine ⟨by rfl, ?_, h.2.1⟩
  have h1 := h.1
  simpa using h1

theorem tokenTruthy_iff (o : Option String) :
    tokenTruthy o = true ↔ ∃ t, o = some t ∧ t ≠ "" := by
  cases o with
  | none => simp [tokenTruthy]
  | some t => simp [tokenTruthy]

/-- C4: `ensure_token` returns without a login call exactly when a token is
cached (truthy) and its assumed expiry is more than 60 seconds away; any
successful run — login or not — leaves a truthy token more than 60 seconds
from its assumed expiry; and `_headers`, run at the start of every broker
call, only ever attaches a token satisfying that margin. -/
theorem ensure_token_spec (st : TokenState) (now : ℚ) (login : LoginOutcome)
    (accounts : List ℤ) :
    (tokenTruthy st.token = true ∧ now < st.token_expiry - 60 →
        ensure_token st now login accounts = .ok (st, false)) ∧
    (∀ st1 b, ensure_token st now login accounts = .ok (st1, b) →
        ((b = false ↔ tokenTruthy st.token = true ∧ now < st.token_expiry - 60) ∧
         tokenTruthy st1.token = true ∧ now < st1.token_expiry - 60)) ∧
    (∀ st1 hs b, _headers st now login accounts = .ok (st1, hs, b) →
        ∃ t, st1.token = some t ∧ t ≠ "" ∧ now < st1.token_expiry - 60 ∧
          hs.head? = some ("Authorization", "Bearer " ++ t)) := by
  by_cases hcond : tokenTruthy st.token = true ∧ now < st.token_expiry - 60
  · have hrun : ensure_token st now login accounts = .ok (st, false) := by
      unfold ensure_token
      rw [if_pos hcond]
    refine ⟨fun _ => hrun, ?_, ?_⟩
    · intro st1 b h
      rw [hrun] at h
      injection h with h
      obtain ⟨h1, h2⟩ := Prod.mk.inj h
      subst h1
      subst h2
      exact ⟨by simp [hcond], hcond.1, hcond.2⟩
    · intro st1 hs b h
      unfold _headers at h
      rw [hrun] at h
      injection h with h
      obtain ⟨rfl, h2⟩ := Prod.mk.inj h
      obtain ⟨rfl, -⟩ := Prod.mk.inj h2
      obtain ⟨t, ht, hne⟩ := (tokenTruthy_iff st.token).mp hcond.1
      exact ⟨t, ht, hne, hcond.2, by simp [headerList, ht]⟩
  · have hbody : ∀ st1 b, ensure_token st now login accounts = .ok (st1, b) →
        b = true ∧ tokenTruthy st1.token = true ∧ st1.token_expiry = now + 23 * 3600 := by
      intro st1 b h
      unfold ensure_token at h
      rw [if_neg hcond] at h
      cases login with
      | httpError s => exact absurd h (by simp)
      | ok tok =>
          simp only at h
          by_cases ht : tokenTruthy tok = true
          · rw [if_pos ht] at h
            cases hacct : st.account_id with
            | some a =>
                simp only [hacct] at h
                injection h with h
                obtain ⟨rfl, rfl⟩ := Prod.mk.inj h
                exact ⟨rfl, ht, rfl⟩
            | none =>
                simp only [hacct] at h
                cases accounts with
                | nil => exact absurd h (by simp)
                | cons a rest =>
                    injection h with h
                    obtain ⟨rfl, rfl⟩ := Prod.mk.inj h
                    exact ⟨rfl, ht, rfl⟩
          · rw [if_neg ht] at h
            exact absurd h (by simp)
    refine ⟨fun hc => absurd hc hcond, ?_, ?_⟩
    · intro st1 b h
      obtain ⟨rfl, ht1, hexp⟩ := hbody st1 b h
      refine ⟨by simp [hcond], ht1, ?_⟩
      rw [hexp]
      linarith
    · intro st1 hs b h
      unfold _headers at h
      cases he : ensure_token st now login accounts with
      | error e => rw [he] at h; exact absurd h (by simp)
      | ok r =>
          rw [he] at h
          injection h with h
          obtain ⟨rfl, h2⟩ := Prod.mk.inj h
          obtain ⟨rfl, -⟩ := Prod.mk.inj h2
          obtain ⟨-, ht1, hexp⟩ := hbody r.1 r.2 (by rw [he])
          obtain ⟨t, ht, hne⟩ := (tokenTruthy_iff r.1.token).mp ht1
          refine ⟨t, ht, hne, ?_, by simp [headerList, ht]⟩
          rw [hexp]
          linarith

/-- C4 (witness): with a cached token 1000 seconds from expiry at time 0,
`ensure_token` performs no login. -/
theorem ensure_token_spec_witness :
    ensure_token ⟨some "tok", 1000, some 1⟩ 0 (.ok none) [] =
      .ok (⟨some "tok", 1000, some 1⟩, false) :=
  (ensure_token_spec ⟨some "tok", 1000, some 1⟩ 0 (.ok none) []).1
    ⟨by decide, by norm_num⟩

theorem closeOrderFor_long (acct : Option ℤ) (p : Position) :
    closeOrderFor acct "long" none p =
      if 0 < p.netPos then some (sellCloseOrder acct p) else none := by
  unfold closeOrderFor sellCloseOrder
  by_cases h : 0 < p.netPos
  · simp [h]
  · simp [h]

theorem closeOrderFor_short (acct : Option ℤ) (p : Position) :
    closeOrderFor acct "short" none p =
      if p.netPos < 0 then some (buyCloseOrder acct p) else none := by
  unfold closeOrderFor buyCloseOrder
  by_cases h : p.netPos < 0
  · simp [h]
  · simp [h]

theorem filterMap_close_long (acct : Option ℤ) (pos : List Position) :
    pos.filterMap (closeOrderFor acct "long" none) =
      (pos.filter (fun p => 0 < p.netPos)).map (sellCloseOrder acct) := by
  induction pos with
  | nil => rfl
  | cons p rest ih =>
      by_cases h : 0 < p.netPos
      · simp [List.filterMap_cons, List.filter_cons, closeOrderFor_long, h, ih]
      · simp [List.filterMap_cons, List.filter_cons, closeOrderFor_long, h, ih]

theorem filterMap_close_short (acct : Option ℤ) (pos : List Position) :
    pos.filterMap (closeOrderFor acct "short" none) =
      (pos.filter (fun p => p.netPos < 0)).map (buyCloseOrder acct) := by
  induction pos with
  | nil => rfl
  | cons p rest ih =>
      by_cases h : p.netPos < 0
      · simp [List.filterMap_cons, List.filter_cons, closeOrderFor_short, h, ih]
      · simp [List.filterMap_cons, List.filter_cons, closeOrderFor_short, h, ih]

theorem flatten_side_long_eq (resolveCid : String → Except String ℤ)
    (acct : Option ℤ) (pos : List Position) :
    flatten_side resolveCid acct "long" none pos =
      .ok ((pos.filter (fun p => 0 < p.netPos)).map (sellCloseOrder acct),
           ((pos.filter (fun p => 0 < p.netPos)).map (sellCloseOrder acct)).length) := by
  unfold flatten_side
  have hl : pyLower "long" = "long" := by decide
  simp only [hl]
  simp [filterMap_close_long]
  rfl

theorem flatten_side_short_eq (resolveCid : String → Except String ℤ)
    (acct : Option ℤ) (pos : List Position) :
    flatten_side resolveCid acct "short" none pos =
      .ok ((pos.filter (fun p => p.netPos < 0)).map (buyCloseOrder acct),
           ((pos.filter (fun p => p.netPos < 0)).map (buyCloseOrder acct)).length) := by
  unfold flatten_side
  have hl : pyLower "short" = "short" := by decide
  simp only [hl]
  simp [filterMap_close_short]
  rfl

/-- C2: over any positions list from the broker, `flatten_side "long"`
submits exactly the closing market SELL orders for the positions with
strictly positive net (one each, sized to the net), `flatten_side "short"`
submits exactly the closing market BUY orders for the strictly negative
positions (sized to the absolute net), zero-net or wrong-sign positions
produce none, and the returned count is the number of orders submitted. -/
theorem flatten_side_spec (resolveCid : String → Except String ℤ)
    (acct : Option ℤ) (pos : List Position) :
    flatten_side resolveCid acct "long" none pos =
      .ok ((pos.filter (fun p => 0 < p.netPos)).map (sellCloseOrder acct),
           ((pos.filter (fun p => 0 < p.netPos)).map (sellCloseOrder acct)).length) ∧
    flatten_side resolveCid acct "short" none pos =
      .ok ((pos.filter (fun p => p.netPos < 0)).map (buyCloseOrder acct),
           ((pos.filter (fun p => p.netPos < 0)).map (buyCloseOrder acct)).length) :=
  ⟨flatten_side_long_eq resolveCid acct pos, flatten_side_short_eq resolveCid acct pos⟩

/-- C9: `place_market` sends the action `"BUY"` exactly when the given side
lowercases to `"buy"`, and its action is always one of `"BUY"`/`"SELL"`, so
every other side value (including invalid or empty strings) is sent as
`"SELL"` rather than rejected. -/
theorem marketAction_spec (side : String) :
    (marketAction side = "BUY" ↔ pyLower side = "buy") ∧
    (marketAction side = "BUY" ∨ marketAction side = "SELL") := by
  unfold marketAction
  by_cases h : pyLower side = "buy"
  · simp [h]
  · simp [h]

theorem webhook_eq_dispatch (req : Request) (broker : Broker) (p : Payload)
    (hauth : ¬ unauthorizedReq req) (hbody : req.body = some p) :
    webhook req broker = dispatch broker p := by
  unfold webhook
  rw [if_neg hauth, hbody]

theorem dispatch_entry (broker : Broker) (p : Payload)
    (haction : actionOf p = "buy" ∨ actionOf p = "sell") :
    dispatch broker p = entryDispatch broker p := by
  unfold dispatch
  rw [if_pos haction]

/-- C7: for an authorized, parseable request whose action is `"buy"` or
`"sell"`: an empty (or missing, hence empty) instrument yields a 400
response with no broker call; the `units` field defaults to 1 when absent
and is coerced through float and truncated into the order quantity; the
risk check runs on exactly that quantity, and `place_market` is invoked —
with that quantity — precisely when the risk check accepts. -/
theorem webhook_entry_spec (req : Request) (broker : Broker) (p : Payload)
    (hauth : ¬ unauthorizedReq req) (hbody : req.body = some p)
    (haction : actionOf p = "buy" ∨ actionOf p = "sell") :
    (instrOf p = "" → webhook req broker = (400, .instrumentRequired, [])) ∧
    (p.units = none → unitsOf p = some 1) ∧
    (instrOf p ≠ "" → ∀ q, unitsOf p = some q →
        ((∃ msg, enforce_risk (instrOf p) (pyTrunc q) = .error msg) →
            (webhook req broker).1 = 400 ∧ (webhook req broker).2.2 = []) ∧
        (enforce_risk (instrOf p) (pyTrunc q) = .ok () →
            (webhook req broker).2.2 = [.place (instrOf p) (pyTrunc q) (actionOf p)])) := by
  have hw : webhook req broker = entryDispatch broker p := by
    rw [webhook_eq_dispatch req broker p hauth hbody, dispatch_entry broker p haction]
  refine ⟨?_, ?_, ?_⟩
  · intro hi
    rw [hw]
    simp only [entryDispatch]
    rw [if_pos hi]
  · intro hu
    unfold unitsOf
    rw [hu]
    rfl
  · intro hi q hq
    constructor
    · rintro ⟨msg, hmsg⟩
      rw [hw]
      simp only [entryDispatch]
      rw [if_neg hi]
      simp only [hq, hmsg]
      simp
    · intro hok
      rw [hw]
      simp only [entryDispatch]
      rw [if_neg hi]
      simp only [hq, hok]
      cases hpm : broker.place_market (instrOf p) (pyTrunc q) (actionOf p) with
      | error e => simp [hpm]
      | ok resp => simp [hpm]

/-- C7 (witness): `{"action": "buy", "instrument": "ES", "units": 5}` with
ES capped at 1 produces a 400 and no broker call. -/
theorem webhook_entry_spec_witness :
    (webhook wReq wBroker).1 = 400 ∧ (webhook wReq wBroker).2.2 = [] := by
  have h := webhook_entry_spec wReq wBroker
      ⟨some (.jstr "buy"), some (.jstr "ES"), some (.jnum 5), none⟩
      (by simp [unauthorizedReq, wReq]) rfl (Or.inl (by decide))
  exact (h.2.2 (by decide) 5 rfl).1 ⟨"Risk guard: ES max qty exceeded", by rfl⟩

theorem brokerErrResp_not_ok (e : BrokerErr) :
    (brokerErrResp e).1 ≠ 200 ∧ ((brokerErrResp e).2).isOkBody = false := by
  cases e with
  | http status body => cases body <;> simp [brokerErrResp, RespBody.isOkBody]
  | exc msg => simp [brokerErrResp, RespBody.isOkBody]

/-- C8: the webhook status mapping: 401 with no broker call when a shared
secret is configured and neither supplied secret matches; 400 for an
unparseable JSON body and for an unrecognized action; when the dispatched
broker call fails with an HTTP error, the response status is 502 and the
body carries the broker status code and decoded body when the body is
parseable (502 and no decoded body otherwise), on both the entry and the
close path; and the status is 200 exactly when the response body is an
`ok: true` body. -/
theorem webhook_status_spec (req : Request) (broker : Broker) :
    (unauthorizedReq req → webhook req broker = (401, .unauthorized, [])) ∧
    (¬ unauthorizedReq req → req.body = none →
        webhook req broker = (400, .invalidJson, [])) ∧
    (∀ p, ¬ unauthorizedReq req → req.body = some p →
        actionOf p ≠ "buy" → actionOf p ≠ "sell" → actionOf p ≠ "close" →
        webhook req broker = (400, .unknownAction (actionOf p), [])) ∧
    (∀ p q, ¬ unauthorizedReq req → req.body = some p →
        (actionOf p = "buy" ∨ actionOf p = "sell") → instrOf p ≠ "" →
        unitsOf p = some q → enforce_risk (instrOf p) (pyTrunc q) = .ok () →
        ∀ status b, broker.place_market (instrOf p) (pyTrunc q) (actionOf p) =
            .error (.http status b) →
          (webhook req broker).1 = 502 ∧
          (webhook req broker).2.1 = (match b with
            | some body => RespBody.brokerHttp status (some body)
            | none => RespBody.brokerHttp 502 none)) ∧
    (∀ p, ¬ unauthorizedReq req → req.body = some p →
        actionOf p = "close" → (sideOf p = "long" ∨ sideOf p = "short") →
        ∀ status b, broker.flatten_side (sideOf p) (closeInstrOf p) =
            .error (.http status b) →
          (webhook req broker).1 = 502 ∧
          (webhook req broker).2.1 = (match b with
            | some body => RespBody.brokerHttp status (some body)
            | none => RespBody.brokerHttp 502 none)) ∧
    ((webhook req broker).1 = 200 ↔ ((webhook req broker).2.1).isOkBody = true) := by
  refine ⟨?_, ?_, ?_, ?_, ?_, ?_⟩
  · intro hauth
    unfold webhook
    rw [if_pos hauth]
  · intro hauth hbody
    unfold webhook
    rw [if_neg hauth, hbody]
  · intro p hauth hbody hb hs hc
    rw [webhook_eq_dispatch req broker p hauth hbody]
    unfold dispatch
    rw [if_neg (by rintro (h | h) <;> [exact hb h; exact hs h]),
        if_neg hc]
  · intro p q hauth hbody haction hi hq hok status b hpm
    rw [webhook_eq_dispatch req broker p hauth hbody,
        dispatch_entry broker p haction]
    simp only [entryDispatch]
    rw [if_neg hi]
    simp only [hq, hok, hpm]
    cases b with
    | some body => exact ⟨rfl, rfl⟩
    | none => exact ⟨rfl, rfl⟩
  · intro p hauth hbody hact hside status b hfl
    rw [webhook_eq_dispatch req broker p hauth hbody]
    unfold dispatch
    rw [if_neg (by rw [hact]; rintro (h | h) <;> exact absurd h (by decide)),
        if_pos hact]
    simp only [closeDispatch]
    rw [if_neg (by rcases hside with h | h <;> rw [h] <;> rintro ⟨h1, h2⟩ <;>
          [exact h1 rfl; exact h2 rfl])]
    simp only [hfl]
    cases b with
    | some body => exact ⟨rfl, rfl⟩
    | none => exact ⟨rfl, rfl⟩
  · by_cases hauth : unauthorizedReq req
    · unfold webhook
      rw [if_pos hauth]
      simp [RespBody.isOkBody]
    · cases hbody : req.body with
      | none =>
          unfold webhook
          rw [if_neg hauth, hbody]
          simp [RespBody.isOkBody]
      | some p =>
          rw [webhook_eq_dispatch req broker p hauth hbody]
          unfold dispatch
          by_cases hact : actionOf p = "buy" ∨ actionOf p = "sell"
          · rw [if_pos hact]
            simp only [entryDispatch]
            by_cases hi : instrOf p = ""
            · rw [if_pos hi]
              simp [RespBody.isOkBody]
            · rw [if_neg hi]
              cases hq : unitsOf p with
              | none => simp [RespBody.isOkBody]
              | some q =>
                  simp only [hq]
                  cases her : enforce_risk (instrOf p) (pyTrunc q) with
                  | error msg => simp [her, RespBody.isOkBody]
                  | ok u =>
                      simp only [her]
                      cases hpm : broker.place_market (instrOf p) (pyTrunc q) (actionOf p) with
                      | error e =>
                          simp only [hpm]
                          have hne := brokerErrResp_not_ok e
                          refine iff_of_false ?_ ?_
                          · simpa using hne.1
                          · simp [hne.2]
                      | ok resp => simp [hpm, RespBody.isOkBody]
          · rw [if_neg hact]
            by_cases hc : actionOf p = "close"
            · rw [if_pos hc]
              simp only [closeDispatch]
              by_cases hside : sideOf p ≠ "long" ∧ sideOf p ≠ "short"
              · rw [if_pos hside]
                simp [RespBody.isOkBody]
              · rw [if_neg hside]
                cases hfl : broker.flatten_side (sideOf p) (closeInstrOf p) with
                | error e =>
                    simp only [hfl]
                    have hne := brokerErrResp_not_ok e
                    refine iff_of_false ?_ ?_
                    · simpa using hne.1
                    · simp [hne.2]
                | ok resp => simp [hfl, RespBody.isOkBody]
            · rw [if_neg hc]
              simp [RespBody.isOkBody]

/-- C8 (witness): with a configured secret and no secret supplied, the
response is a 401 with no broker call. -/
theorem webhook_status_spec_witness :
    webhook ⟨"s3cr3t", none, none, none⟩ wBroker = (401, .unauthorized, []) :=
  (webhook_status_spec ⟨"s3cr3t", none, none, none⟩ wBroker).1
    (by simp [unauthorizedReq])

/-- C10: for an authorized close request with a valid side, an instrument
field that is absent, null, or the empty string is treated as no
instrument: the single broker call is `flatten_side` with no contract
filter — which, over any positions list, closes every matching-side
position across all instruments — and the request succeeds rather than
being rejected or resolving an empty symbol. -/
theorem webhook_close_no_instrument (req : Request) (broker : Broker) (p : Payload)
    (hauth : ¬ unauthorizedReq req) (hbody : req.body = some p)
    (haction : actionOf p = "close")
    (hside : sideOf p = "long" ∨ sideOf p = "short")
    (hinstr : p.instrument = none ∨ p.instrument = some .jnull ∨
        p.instrument = some (.jstr "")) :
    closeInstrOf p = none ∧
    (webhook req broker).2.2 = [.flatten (sideOf p) none] ∧
    (∀ r, broker.flatten_side (sideOf p) none = .ok r →
        webhook req broker =
          (200, .closeOk (sideOf p) none r, [.flatten (sideOf p) none])) ∧
    (∀ resolveCid acct pos, sideOf p = "long" →
        flatten_side resolveCid acct (sideOf p) none pos =
          .ok ((pos.filter (fun po => 0 < po.netPos)).map (sellCloseOrder acct),
               ((pos.filter (fun po => 0 < po.netPos)).map (sellCloseOrder acct)).length)) ∧
    (∀ resolveCid acct pos, sideOf p = "short" →
        flatten_side resolveCid acct (sideOf p) none pos =
          .ok ((pos.filter (fun po => po.netPos < 0)).map (buyCloseOrder acct),
               ((pos.filter (fun po => po.netPos < 0)).map (buyCloseOrder acct)).length)) := by
  have hci : closeInstrOf p = none := by
    rcases hinstr with h | h | h <;> simp [closeInstrOf, h, pyTruthy]
  have hw : webhook req broker = closeDispatch broker p := by
    rw [webhook_eq_dispatch req broker p hauth hbody]
    unfold dispatch
    rw [if_neg (by rw [haction]; rintro (h | h) <;> exact absurd h (by decide)),
        if_pos haction]
  have hsideneg : ¬(sideOf p ≠ "long" ∧ sideOf p ≠ "short") := by
    rcases hside with h | h <;> rw [h] <;> rintro ⟨h1, h2⟩ <;>
      [exact h1 rfl; exact h2 rfl]
  refine ⟨hci, ?_, ?_, ?_, ?_⟩
  · rw [hw]
    simp only [closeDispatch]
    rw [if_neg hsideneg]
    simp only [hci]
    cases hfl : broker.flatten_side (sideOf p) none with
    | error e => rfl
    | ok r => rfl
  · intro r hr
    rw [hw]
    simp only [closeDispatch]
    rw [if_neg hsideneg]
    simp only [hci, hr]
  · intro resolveCid acct pos hlong
    rw [hlong]
    exact flatten_side_long_eq resolveCid acct pos
  · intro resolveCid acct pos hshort
    rw [hshort]
    exact flatten_side_short_eq resolveCid acct pos

/-- C10 (witness): `{"action": "close", "side": "long"}` with no instrument
field closes via one unfiltered `flatten_side` call and returns 200. -/
theorem webhook_close_no_instrument_witness :
    webhook ⟨"", none, none, some ⟨some (.jstr "close"), none, none, some (.jstr "long")⟩⟩
        wBroker =
      (200, .closeOk "long" none "resp", [.flatten "long" none]) := by
  have h := webhook_close_no_instrument
      ⟨"", none, none, some ⟨some (.jstr "close"), none, none, some (.jstr "long")⟩⟩ wBroker
      ⟨some (.jstr "close"), none, none, some (.jstr "long")⟩
      (by simp [unauthorizedReq]) rfl (by decide) (Or.inl (by decide)) (Or.inl rfl)
  exact h.2.2.1 "resp" (by rfl)

end TGIM
